import Mathlib

/-!
Verification of the core of the pdf-to-cbz converter.

This file gives a shallow embedding of the DPI-resolution and page-rendering
pipeline of the repository (the two `Converter` variants in `pdf_to_cbz.py`
and `pdf_to_cbz_gui.py`, and the dotted-path configuration store in
`config_manager.py`), and proves or refutes the stated properties of the
specification against that embedding.

Conventions of the embedding:
  - page widths are exact rationals (the source computes with `float`; every
    input appearing in a theorem or witness below is far from any rounding
    boundary, so the rational value and the float value agree);
  - raised Python exceptions are modelled as `none` / `Except.error`;
  - image byte strings are `List Nat`;
  - the behaviour of the two external renderers is an explicit environment
    (`PrimaryRun` / `FallbackRun`) describing what the external processes did.
-/

namespace PdfToCbz

/-- Python `int()` applied to an exact rational value: truncation toward zero
(floor for nonnegative arguments, ceiling for negative ones). -/
def pyInt (q : ℚ) : ℤ := if 0 ≤ q then ⌊q⌋ else ⌈q⌉

/-- Python `round()` applied to an exact rational value: round half to even. -/
def pyRound (q : ℚ) : ℤ :=
  if q - ⌊q⌋ = 1 / 2 then (if 2 ∣ ⌊q⌋ then ⌊q⌋ else ⌊q⌋ + 1) else round q

/-- Clarity DPI of the CLI variant, `Converter.calculate_clarity_dpi` in
`pdf_to_cbz.py` (lines 77-88).  The argument is the list of page widths in
points; the source reads `reader.pages[0].mediabox.width` and computes
`max(int(2000 / width_pt * 72), 100)`.  `none` models the uncaught
exceptions: `IndexError` on an empty page list and `ZeroDivisionError`
when the first width is zero. -/
def calculate_clarity_dpi_cli (widths : List ℚ) : Option ℤ :=
  match widths with
  | [] => none
  | w :: _ =>
    if w = 0 then none
    else some (max (pyInt (2000 / w * 72)) 100)

/-- Clarity DPI of the GUI variant, `Converter.calculate_clarity_dpi` in
`pdf_to_cbz_gui.py` (lines 114-149): an empty page list returns the default
150, a first-page width `<= 0` returns the default 150, and otherwise the
result is `max(int(2000 / (width_pt / 72)), 150)`. -/
def calculate_clarity_dpi_gui (widths : List ℚ) : ℤ :=
  match widths with
  | [] => 150
  | w :: _ =>
    if w ≤ 0 then 150
    else max (pyInt (2000 / (w / 72))) 150

lemma pyInt_of_nonneg {q : ℚ} (h : 0 ≤ q) : pyInt q = ⌊q⌋ := by
  simp [pyInt, h]

lemma pyInt_of_neg {q : ℚ} (h : q < 0) : pyInt q = ⌈q⌉ := by
  simp [pyInt, not_le.mpr h]

lemma floor_of_intCast_div_natCast {q : ℚ} (a : ℤ) (b : ℕ)
    (h : q = (a : ℚ) / (b : ℚ)) : ⌊q⌋ = a / (b : ℤ) := by
  rw [h, Rat.floor_intCast_div_natCast]

/-- The two clarity formulas agree before clamping: for a positive width,
`2000 / w * 72` (CLI) and `2000 / (w / 72)` (GUI) are the same rational. -/
lemma clarity_expr_eq (w : ℚ) (hw : w ≠ 0) :
    (2000 : ℚ) / w * 72 = 2000 / (w / 72) := by
  field_simp

lemma clarity_expr_nonneg (w : ℚ) (hw : 0 < w) :
    (0 : ℚ) ≤ 2000 / w * 72 := by
  positivity

/-- C2, counterexample.  At first-page width 596pt the code computes 241
(truncating division), while the specified formula
`round(2000 / (w / 72))` clamped to the floor gives 242, in both variants. -/
theorem C2_counterexample :
    calculate_clarity_dpi_cli [596] = some 241 ∧
    calculate_clarity_dpi_gui [596] = 241 ∧
    max (round ((2000 : ℚ) / (596 / 72))) 100 = 242 ∧
    max (round ((2000 : ℚ) / (596 / 72))) 150 = 242 := by
  have he : (2000 : ℚ) / 596 * 72 = 2000 / (596 / 72) := clarity_expr_eq 596 (by norm_num)
  have hf : (⌊(2000 : ℚ) / (596 / 72)⌋ : ℤ) = 241 := by
    rw [floor_of_intCast_div_natCast 144000 596 (by norm_num)]
    decide
  have hp : pyInt ((2000 : ℚ) / (596 / 72)) = 241 := by
    rw [pyInt_of_nonneg (by positivity), hf]
  have hr : (round ((2000 : ℚ) / (596 / 72)) : ℤ) = 242 := by
    rw [round_eq, floor_of_intCast_div_natCast 288596 1192 (by norm_num)]
    decide
  refine ⟨?_, ?_, ?_, ?_⟩
  · simp only [calculate_clarity_dpi_cli, if_neg (by norm_num : ¬(596 : ℚ) = 0)]
    rw [he, hp]; decide
  · simp only [calculate_clarity_dpi_gui, if_neg (by norm_num : ¬(596 : ℚ) ≤ 0)]
    rw [hp]; decide
  · rw [hr]; decide
  · rw [hr]; decide

/-- C2, amended.  The clarity DPI equals the floor (Python `int()`
truncation, not `round`) of `2000 / (w / 72)`, clamped up to the minimum
floor, which is 100 in the CLI variant and 150 in the GUI variant; the
pre-clamp value at width 595pt is 242 as the spec example states. -/
theorem C2_clarity_dpi_floor (w : ℚ) (rest : List ℚ) (hw : 0 < w) :
    calculate_clarity_dpi_cli (w :: rest) =
      some (max ⌊(2000 : ℚ) / (w / 72)⌋ 100) ∧
    calculate_clarity_dpi_gui (w :: rest) = max ⌊(2000 : ℚ) / (w / 72)⌋ 150 ∧
    pyInt ((2000 : ℚ) / (595 / 72)) = 242 := by
  have hw0 : w ≠ 0 := ne_of_gt hw
  have he := clarity_expr_eq w hw0
  have hnn : (0 : ℚ) ≤ 2000 / (w / 72) := by
    rw [← he]; exact clarity_expr_nonneg w hw
  refine ⟨?_, ?_, ?_⟩
  · simp only [calculate_clarity_dpi_cli, if_neg hw0]
    rw [he, pyInt_of_nonneg hnn]
  · simp only [calculate_clarity_dpi_gui, if_neg (not_le.mpr hw)]
    rw [pyInt_of_nonneg hnn]
  · rw [pyInt_of_nonneg (by positivity),
      floor_of_intCast_div_natCast 144000 595 (by norm_num)]
    decide

/-- Witness for C2 at the spec example width 595pt: both variants give
`max 242 floor = 242`. -/
theorem C2_clarity_dpi_floor_witness :
    calculate_clarity_dpi_cli [595] = some (max ⌊(2000 : ℚ) / (595 / 72)⌋ 100) ∧
    calculate_clarity_dpi_gui [595] = max ⌊(2000 : ℚ) / (595 / 72)⌋ 150 ∧
    pyInt ((2000 : ℚ) / (595 / 72)) = 242 :=
  C2_clarity_dpi_floor 595 [] (by norm_num)

/-- C6, counterexample.  On a zero-page document the CLI variant raises
`IndexError` (modelled `none`) instead of returning a fixed default DPI,
and on a negative first-page width it returns the 100 clamp rather than a
default; only the GUI variant returns the default 150. -/
theorem C6_counterexample :
    calculate_clarity_dpi_cli [] = none ∧
    calculate_clarity_dpi_cli [-1] = some 100 ∧
    calculate_clarity_dpi_gui [] = 150 := by
  have h1 : calculate_clarity_dpi_cli [-1] = some 100 := by
    simp only [calculate_clarity_dpi_cli, if_neg (by norm_num : ¬(-1 : ℚ) = 0)]
    have hneg : (2000 : ℚ) / (-1) * 72 < 0 := by norm_num
    rw [pyInt_of_neg hneg,
      show (2000 : ℚ) / (-1) * 72 = ((-144000 : ℤ) : ℚ) by norm_num,
      Int.ceil_intCast]
    decide
  exact ⟨rfl, h1, rfl⟩

/-- C6, amended.  Only the GUI variant guards the degenerate cases: it
returns the fixed default 150 for a zero-page document and for a
first-page width `<= 0`.  The CLI variant raises on zero pages and on a
zero width, and returns the 100 minimum clamp for negative widths. -/
theorem C6_default_dpi (rest : List ℚ) (w : ℚ) (hw : w ≤ 0) :
    calculate_clarity_dpi_gui [] = 150 ∧
    calculate_clarity_dpi_gui (w :: rest) = 150 ∧
    calculate_clarity_dpi_cli [] = none ∧
    calculate_clarity_dpi_cli ((0 : ℚ) :: rest) = none := by
  refine ⟨rfl, ?_, rfl, ?_⟩
  · simp [calculate_clarity_dpi_gui, hw]
  · simp [calculate_clarity_dpi_cli]

/-- Witness for C6 at width 0 with a one-page tail. -/
theorem C6_default_dpi_witness :
    calculate_clarity_dpi_gui [] = 150 ∧
    calculate_clarity_dpi_gui [(0 : ℚ)] = 150 ∧
    calculate_clarity_dpi_cli [] = none ∧
    calculate_clarity_dpi_cli [(0 : ℚ)] = none :=
  C6_default_dpi [] 0 le_rfl

/-- C7.  The clarity DPI is antitone in the first-page width, in both
variants: for positive widths `w1 <= w2` the wider page gets a lower or
equal DPI. -/
theorem C7_clarity_dpi_antitone (w1 w2 : ℚ) (r1 r2 : List ℚ)
    (h1 : 0 < w1) (h12 : w1 ≤ w2) :
    calculate_clarity_dpi_gui (w2 :: r2) ≤ calculate_clarity_dpi_gui (w1 :: r1) ∧
    ∀ d1 d2 : ℤ, calculate_clarity_dpi_cli (w1 :: r1) = some d1 →
      calculate_clarity_dpi_cli (w2 :: r2) = some d2 → d2 ≤ d1 := by
  have h2 : 0 < w2 := lt_of_lt_of_le h1 h12
  have hmono : (2000 : ℚ) / w2 * 72 ≤ 2000 / w1 * 72 := by
    have := div_le_div_of_nonneg_left (by norm_num : (0 : ℚ) ≤ 2000) h1 h12
    exact mul_le_mul_of_nonneg_right this (by norm_num)
  have hfl : pyInt ((2000 : ℚ) / w2 * 72) ≤ pyInt ((2000 : ℚ) / w1 * 72) := by
    rw [pyInt_of_nonneg (clarity_expr_nonneg w1 h1),
      pyInt_of_nonneg (clarity_expr_nonneg w2 h2)]
    exact Int.floor_le_floor hmono
  constructor
  · simp only [calculate_clarity_dpi_gui, if_neg (not_le.mpr h1), if_neg (not_le.mpr h2)]
    rw [← clarity_expr_eq w1 (ne_of_gt h1), ← clarity_expr_eq w2 (ne_of_gt h2)]
    exact max_le_max hfl le_rfl
  · intro d1 d2 hd1 hd2
    simp only [calculate_clarity_dpi_cli, if_neg (ne_of_gt h1), if_neg (ne_of_gt h2),
      Option.some.injEq] at hd1 hd2
    rw [← hd1, ← hd2]
    exact max_le_max hfl le_rfl

/-- Witness for C7 at widths 595pt and 1190pt. -/
theorem C7_clarity_dpi_antitone_witness :
    calculate_clarity_dpi_gui [(1190 : ℚ)] ≤ calculate_clarity_dpi_gui [(595 : ℚ)] ∧
    ∀ d1 d2 : ℤ, calculate_clarity_dpi_cli [(595 : ℚ)] = some d1 →
      calculate_clarity_dpi_cli [(1190 : ℚ)] = some d2 → d2 ≤ d1 :=
  C7_clarity_dpi_antitone 595 1190 [] [] (by norm_num) (by norm_num)

/-! ## The rendering pipeline: `process_page` and `convert`

Both source variants share this code verbatim (`pdf_to_cbz.py` lines
90-169, `pdf_to_cbz_gui.py` lines 151-246); the embedding below covers
both. -/

/-- Image byte strings. -/
abbrev Bytes := List Nat

/-- The two supported output formats (`-f jpeg` / `-f png`). -/
inductive Fmt where
  | jpeg
  | png
deriving DecidableEq, Repr

/-- File extension of a format: `jpg` for jpeg, `png` for png
(`ext = "jpg" if self.fmt == "jpeg" else "png"`). -/
def Fmt.extOf : Fmt → String
  | .jpeg => "jpg"
  | .png => "png"

/-- Python `f"\x7bn:03d\x7d"` for a nonnegative number: the decimal digits
padded with leading zeros to at least three characters. -/
def pad3 (n : Nat) : String :=
  let s := toString n
  if 3 ≤ s.length then s
  else String.mk (List.replicate (3 - s.length) '0') ++ s

/-- The archive entry name built by `process_page`:
`f"\x7bself.input_pdf.stem\x7d_\x7bpage_num:03d\x7d.\x7bext\x7d"`. -/
def pageName (stem : String) (fmt : Fmt) (page : Nat) : String :=
  stem ++ "_" ++ pad3 page ++ "." ++ fmt.extOf

/-- What the single `pdftocairo` subprocess invocation of `process_page`
did: whether the binary was found (`FileNotFoundError` otherwise), whether
`subprocess.run` raised some other exception, its exit code, and the
contents of the two possible output files `page.\x7bext\x7d` and
`page-\x7bpage_num\x7d.\x7bext\x7d` in the scratch directory (`none` when
the file does not exist). -/
structure PrimaryRun where
  found : Bool
  crashed : Bool
  rc : Int
  singleOut : Option Bytes
  multiOut : Option Bytes
deriving DecidableEq, Repr

/-- What the `pdf2image.convert_from_path` fallback of `process_page` did:
`none` models a raised exception, `some imgs` the returned image list,
each element being the bytes produced by saving that image at the
configured format and quality. -/
structure FallbackRun where
  images : Option (List Bytes)
deriving DecidableEq, Repr

/-- Behaviour of the external renderers for one page. -/
structure PageEnv where
  primary : PrimaryRun
  fallback : FallbackRun
deriving DecidableEq, Repr

/-- A renderer invocation, recorded with the page number and DPI it was
given (both appear in the `pdftocairo` command line and in the
`convert_from_path` arguments). -/
inductive RendererCall where
  | primary (page dpi : Nat)
  | fallback (page dpi : Nat)
deriving DecidableEq, Repr

/-- The bytes the primary renderer path yields, if any: the source accepts
them only when the process ran (`found`, no crash), exited with code 0,
and one of the two candidate output files exists — `page.\x7bext\x7d`
first, then `page-\x7bpage_num\x7d.\x7bext\x7d`. -/
def primaryBytes (p : PrimaryRun) : Option Bytes :=
  if p.found && !p.crashed && p.rc == 0 then
    match p.singleOut with
    | some b => some b
    | none => p.multiOut
  else none

/-- The bytes the fallback path yields, if any: the first image of a
nonempty returned list; an exception or an empty list yields nothing. -/
def fallbackBytes (f : FallbackRun) : Option Bytes :=
  match f.images with
  | some (b :: _) => some b
  | _ => none

/-- `Converter.process_page` (`pdf_to_cbz.py` lines 90-151): try the
primary `pdftocairo` invocation, fall back to `pdf2image` when it yields
nothing, and raise `FileNotFoundError(f"Unable to render page ...")` when
both fail.  Returns the result together with the list of renderer
invocations made, in order. -/
def process_page (env : PageEnv) (stem : String) (fmt : Fmt) (dpi page : Nat) :
    Except String (Bytes × String) × List RendererCall :=
  match primaryBytes env.primary with
  | some b => (.ok (b, pageName stem fmt page), [.primary page dpi])
  | none =>
    match fallbackBytes env.fallback with
    | some b => (.ok (b, pageName stem fmt page), [.primary page dpi, .fallback page dpi])
    | none => (.error ("Unable to render page " ++ toString page),
               [.primary page dpi, .fallback page dpi])

/-- The per-page outcome as the `convert` loop sees it through
`fut.result()`: `some (name, bytes)` on success, `none` when
`process_page` raised. -/
def pageOk (env : Nat → PageEnv) (stem : String) (fmt : Fmt) (dpi page : Nat) :
    Option (String × Bytes) :=
  match (process_page (env page) stem fmt dpi page).1 with
  | .ok (b, name) => some (name, b)
  | .error _ => none

/-- `Converter.convert` (`pdf_to_cbz.py` lines 153-169) after the DPI has
been resolved: one future per page `1..P` is submitted, and the loop over
`as_completed(futures)` — whose order is the worker completion order
`order`, some permutation of `1..P` — appends each successful result to
the archive with `zf.writestr(name, img_bytes)` and logs failed pages.
Returns the archive entries in write order and the failed page numbers in
completion order. -/
def convertRun (env : Nat → PageEnv) (stem : String) (fmt : Fmt) (dpi : Nat)
    (order : List Nat) : List (String × Bytes) × List Nat :=
  order.foldl
    (fun acc page =>
      match pageOk env stem fmt dpi page with
      | some e => (acc.1 ++ [e], acc.2)
      | none => (acc.1, acc.2 ++ [page]))
    ([], [])

lemma convertRun_foldl (env : Nat → PageEnv) (stem : String) (fmt : Fmt)
    (dpi : Nat) (order : List Nat) (acc : List (String × Bytes) × List Nat) :
    order.foldl
      (fun acc page =>
        match pageOk env stem fmt dpi page with
        | some e => (acc.1 ++ [e], acc.2)
        | none => (acc.1, acc.2 ++ [page]))
      acc =
    (acc.1 ++ order.filterMap (pageOk env stem fmt dpi),
     acc.2 ++ order.filter (fun p => (pageOk env stem fmt dpi p).isNone)) := by
  induction order generalizing acc with
  | nil => simp
  | cons p rest ih =>
    rcases h : pageOk env stem fmt dpi p with _ | e
    · simp only [List.foldl_cons, h, ih, List.filterMap_cons, List.filter_cons, h,
        Option.isNone_none, List.append_assoc]
      simp
    · simp only [List.foldl_cons, h, ih, List.filterMap_cons, List.filter_cons, h,
        Option.isNone_some, List.append_assoc]
      simp

/-- The `convert` loop is exactly a filter of the completion order: kept
entries for pages whose render succeeded, recorded failures for the
others. -/
lemma convertRun_eq (env : Nat → PageEnv) (stem : String) (fmt : Fmt)
    (dpi : Nat) (order : List Nat) :
    convertRun env stem fmt dpi order =
      (order.filterMap (pageOk env stem fmt dpi),
       order.filter (fun p => (pageOk env stem fmt dpi p).isNone)) := by
  rw [convertRun, convertRun_foldl]
  simp

lemma pageOk_fst (env : Nat → PageEnv) (stem : String) (fmt : Fmt)
    (dpi page : Nat) (e : String × Bytes)
    (h : pageOk env stem fmt dpi page = some e) : e.1 = pageName stem fmt page := by
  unfold pageOk process_page at h
  rcases hp : primaryBytes (env page).primary with _ | b
  · rcases hf : fallbackBytes (env page).fallback with _ | b
    · simp [hp, hf] at h
    · simp [hp, hf] at h
      rw [← h]
  · simp [hp] at h
    rw [← h]

lemma filterMap_pageOk_all_some (env : Nat → PageEnv) (stem : String)
    (fmt : Fmt) (dpi : Nat) (l : List Nat)
    (h : ∀ p ∈ l, (pageOk env stem fmt dpi p).isSome) :
    (l.filterMap (pageOk env stem fmt dpi)).map Prod.fst =
      l.map (pageName stem fmt) ∧
    (l.filterMap (pageOk env stem fmt dpi)).length = l.length := by
  induction l with
  | nil => simp
  | cons p rest ih =>
    have hp := h p (List.mem_cons_self p rest)
    rcases he : pageOk env stem fmt dpi p with _ | e
    · rw [he] at hp; simp at hp
    · have hrest := ih (fun q hq => h q (List.mem_cons_of_mem p hq))
      simp only [List.filterMap_cons, he, List.map_cons, List.length_cons]
      constructor
      · rw [pageOk_fst env stem fmt dpi p e he, hrest.1]
      · rw [hrest.2]

/-- C1.  A run in which every page render succeeds produces an archive
with exactly `P` entries, whose names are precisely
`stem_001.ext .. stem_P.ext` (as a permutation, i.e. nothing else is in
the archive), and no recorded failures. -/
theorem C1_archive_entries (env : Nat → PageEnv) (stem : String) (fmt : Fmt)
    (dpi P : Nat) (order : List Nat)
    (hperm : order.Perm (List.range' 1 P))
    (hok : ∀ p ∈ List.range' 1 P, (pageOk env stem fmt dpi p).isSome) :
    ((convertRun env stem fmt dpi order).1.map Prod.fst).Perm
      ((List.range' 1 P).map (pageName stem fmt)) ∧
    (convertRun env stem fmt dpi order).1.length = P ∧
    (convertRun env stem fmt dpi order).2 = [] := by
  rw [convertRun_eq]
  have hfm := List.Perm.filterMap (pageOk env stem fmt dpi) hperm
  have hall := filterMap_pageOk_all_some env stem fmt dpi (List.range' 1 P) hok
  refine ⟨?_, ?_, ?_⟩
  · dsimp only
    have h1 := hfm.map Prod.fst
    rw [hall.1] at h1
    exact h1
  · dsimp only
    rw [hfm.length_eq, hall.2, List.length_range']
  · dsimp only
    rw [List.filter_eq_nil_iff]
    intro p hp
    have hs := hok p (hperm.mem_iff.mp hp)
    simp only [Option.isNone_iff_eq_none]
    intro hnone
    rw [hnone] at hs
    simp at hs

/-- Witness for C1: a two-page document, completion order `[2, 1]`, both
renders succeeding through the primary path. -/
theorem C1_archive_entries_witness :
    ((convertRun
        (fun _ => ⟨⟨true, false, 0, some [7], none⟩, ⟨none⟩⟩)
        "doc" .jpeg 242 [2, 1]).1.map Prod.fst).Perm
      ((List.range' 1 2).map (pageName "doc" .jpeg)) ∧
    (convertRun (fun _ => ⟨⟨true, false, 0, some [7], none⟩, ⟨none⟩⟩)
        "doc" .jpeg 242 [2, 1]).1.length = 2 ∧
    (convertRun (fun _ => ⟨⟨true, false, 0, some [7], none⟩, ⟨none⟩⟩)
        "doc" .jpeg 242 [2, 1]).2 = [] :=
  C1_archive_entries (fun _ => ⟨⟨true, false, 0, some [7], none⟩, ⟨none⟩⟩)
    "doc" .jpeg 242 2 [2, 1] (by decide) (by decide)

lemma filter_isNone_erase_nil (env : Nat → PageEnv) (stem : String)
    (fmt : Fmt) (dpi P f : Nat)
    (hok : ∀ p ∈ List.range' 1 P, p ≠ f → (pageOk env stem fmt dpi p).isSome) :
    ((List.range' 1 P).erase f).filter
      (fun p => (pageOk env stem fmt dpi p).isNone) = [] := by
  rw [List.filter_eq_nil_iff]
  intro p hp
  have hmem := (List.Nodup.mem_erase_iff (List.nodup_range' 1 P)).mp hp
  have hs := hok p hmem.2 hmem.1
  simp only [Option.isNone_iff_eq_none]
  intro hnone
  rw [hnone] at hs
  simp at hs

/-- C3.  When exactly one page `f` fails to render (primary and fallback
both), the run is not aborted: the failure list is exactly `[f]`, and the
archive still receives the `P - 1` entries of all the other pages. -/
theorem C3_partial_failure (env : Nat → PageEnv) (stem : String) (fmt : Fmt)
    (dpi P f : Nat) (order : List Nat)
    (hperm : order.Perm (List.range' 1 P))
    (hf : f ∈ List.range' 1 P)
    (hfail : pageOk env stem fmt dpi f = none)
    (hok : ∀ p ∈ List.range' 1 P, p ≠ f → (pageOk env stem fmt dpi p).isSome) :
    (convertRun env stem fmt dpi order).2 = [f] ∧
    (convertRun env stem fmt dpi order).1.length = P - 1 ∧
    ((convertRun env stem fmt dpi order).1.map Prod.fst).Perm
      (((List.range' 1 P).erase f).map (pageName stem fmt)) := by
  rw [convertRun_eq]
  have hpe : (List.range' 1 P).Perm (f :: (List.range' 1 P).erase f) :=
    List.perm_cons_erase hf
  have herase : ∀ p ∈ (List.range' 1 P).erase f,
      (pageOk env stem fmt dpi p).isSome := by
    intro p hp
    have hmem := (List.Nodup.mem_erase_iff (List.nodup_range' 1 P)).mp hp
    exact hok p hmem.2 hmem.1
  have hall := filterMap_pageOk_all_some env stem fmt dpi
    ((List.range' 1 P).erase f) herase
  refine ⟨?_, ?_, ?_⟩
  · dsimp only
    have h1 := (hperm.trans hpe).filter
      (fun p => (pageOk env stem fmt dpi p).isNone)
    rw [List.filter_cons_of_pos, filter_isNone_erase_nil env stem fmt dpi P f hok]
      at h1
    · exact List.perm_singleton.mp h1
    · rw [hfail]; rfl
  · dsimp only
    have h1 := (hperm.trans hpe).filterMap (pageOk env stem fmt dpi)
    rw [List.filterMap_cons_none hfail] at h1
    rw [h1.length_eq, hall.2, List.length_erase_of_mem hf, List.length_range']
  · dsimp only
    have h1 := ((hperm.trans hpe).filterMap (pageOk env stem fmt dpi)).map Prod.fst
    rw [List.filterMap_cons_none hfail, hall.1] at h1
    exact h1

/-- Witness for C3: three pages, page 2 fails both renderer paths,
completion order `[3, 2, 1]`. -/
theorem C3_partial_failure_witness :
    (convertRun
        (fun p => if p = 2 then ⟨⟨true, false, 1, none, none⟩, ⟨some []⟩⟩
          else ⟨⟨true, false, 0, some [7], none⟩, ⟨none⟩⟩)
        "doc" .jpeg 242 [3, 2, 1]).2 = [2] ∧
    (convertRun
        (fun p => if p = 2 then ⟨⟨true, false, 1, none, none⟩, ⟨some []⟩⟩
          else ⟨⟨true, false, 0, some [7], none⟩, ⟨none⟩⟩)
        "doc" .jpeg 242 [3, 2, 1]).1.length = 3 - 1 ∧
    ((convertRun
        (fun p => if p = 2 then ⟨⟨true, false, 1, none, none⟩, ⟨some []⟩⟩
          else ⟨⟨true, false, 0, some [7], none⟩, ⟨none⟩⟩)
        "doc" .jpeg 242 [3, 2, 1]).1.map Prod.fst).Perm
      (((List.range' 1 3).erase 2).map (pageName "doc" .jpeg)) :=
  C3_partial_failure
    (fun p => if p = 2 then ⟨⟨true, false, 1, none, none⟩, ⟨some []⟩⟩
      else ⟨⟨true, false, 0, some [7], none⟩, ⟨none⟩⟩)
    "doc" .jpeg 242 3 2 [3, 2, 1] (by decide) (by decide) (by decide) (by decide)

/-- C5.  The archive contents do not depend on the worker completion
order: two runs whose completion orders are both permutations of the page
range produce the same multiset of (entry name, entry bytes) pairs, and
the same multiset of recorded failures. -/
theorem C5_completion_order_invariant (env : Nat → PageEnv) (stem : String)
    (fmt : Fmt) (dpi P : Nat) (o1 o2 : List Nat)
    (h1 : o1.Perm (List.range' 1 P)) (h2 : o2.Perm (List.range' 1 P)) :
    (convertRun env stem fmt dpi o1).1.Perm (convertRun env stem fmt dpi o2).1 ∧
    (convertRun env stem fmt dpi o1).2.Perm (convertRun env stem fmt dpi o2).2 := by
  have h12 := h1.trans h2.symm
  rw [convertRun_eq, convertRun_eq]
  exact ⟨h12.filterMap (pageOk env stem fmt dpi),
    h12.filter (fun p => (pageOk env stem fmt dpi p).isNone)⟩

/-- Witness for C5: a two-page document converted with completion orders
`[1, 2]` and `[2, 1]`. -/
theorem C5_completion_order_invariant_witness :
    (convertRun (fun _ => ⟨⟨true, false, 0, some [7], none⟩, ⟨none⟩⟩)
        "doc" .jpeg 242 [1, 2]).1.Perm
      (convertRun (fun _ => ⟨⟨true, false, 0, some [7], none⟩, ⟨none⟩⟩)
        "doc" .jpeg 242 [2, 1]).1 ∧
    (convertRun (fun _ => ⟨⟨true, false, 0, some [7], none⟩, ⟨none⟩⟩)
        "doc" .jpeg 242 [1, 2]).2.Perm
      (convertRun (fun _ => ⟨⟨true, false, 0, some [7], none⟩, ⟨none⟩⟩)
        "doc" .jpeg 242 [2, 1]).2 :=
  C5_completion_order_invariant (fun _ => ⟨⟨true, false, 0, some [7], none⟩, ⟨none⟩⟩)
    "doc" .jpeg 242 2 [1, 2] [2, 1] (by decide) (by decide)

/-- The conditions under which the primary `pdftocairo` path yields no
image, in the words of the spec: the command is unavailable (or the
invocation raised), it exited non-zero, or it produced no output file. -/
def primaryFailed (p : PrimaryRun) : Prop :=
  p.found = false ∨ p.crashed = true ∨ p.rc ≠ 0 ∨
    (p.singleOut = none ∧ p.multiOut = none)

/-- The conditions under which the `pdf2image` fallback yields no image:
it raised, or returned an empty image list. -/
def fallbackFailed (f : FallbackRun) : Prop :=
  f.images = none ∨ f.images = some []

lemma primaryBytes_eq_none_iff (p : PrimaryRun) :
    primaryBytes p = none ↔ primaryFailed p := by
  rcases p with ⟨found, crashed, rc, singleOut, multiOut⟩
  rcases found with _ | _ <;> rcases crashed with _ | _ <;>
    by_cases hrc : rc = 0 <;>
    rcases singleOut with _ | b <;> rcases multiOut with _ | c <;>
    simp_all [primaryBytes, primaryFailed]

lemma fallbackBytes_eq_none_iff (f : FallbackRun) :
    fallbackBytes f = none ↔ fallbackFailed f := by
  rcases f with ⟨_ | (_ | ⟨b, l⟩)⟩ <;> simp [fallbackBytes, fallbackFailed]

/-- C4.  `process_page` always invokes the primary renderer first; when
the primary invocation is unavailable, exits non-zero or produces no
output file, it invokes the fallback for the same page and DPI (and
nothing else — no retry); and when the fallback also fails, the page
fails with an error naming the page, which `convert` then records as a
per-page failure. -/
theorem C4_renderer_failover (env : PageEnv) (stem : String) (fmt : Fmt)
    (dpi page : Nat) :
    (process_page env stem fmt dpi page).2.head? =
      some (.primary page dpi) ∧
    (primaryFailed env.primary →
      (process_page env stem fmt dpi page).2 =
        [.primary page dpi, .fallback page dpi]) ∧
    (primaryFailed env.primary → fallbackFailed env.fallback →
      (process_page env stem fmt dpi page).1 =
        .error ("Unable to render page " ++ toString page) ∧
      ∀ P order envAll, envAll page = env →
        order.Perm (List.range' 1 P) → page ∈ List.range' 1 P →
        page ∈ (convertRun envAll stem fmt dpi order).2) := by
  rcases hp : primaryBytes env.primary with _ | b
  · rcases hf : fallbackBytes env.fallback with _ | b
    · simp only [process_page, hp, hf]
      refine ⟨by simp, fun _ => by simp, fun _ _ => ⟨by simp, ?_⟩⟩
      intro P order envAll henv hperm hmem
      rw [convertRun_eq]
      dsimp only
      rw [List.mem_filter]
      refine ⟨hperm.mem_iff.mpr hmem, ?_⟩
      simp only [pageOk, process_page, henv, hp, hf, Option.isNone_none]
    · simp only [process_page, hp, hf]
      refine ⟨by simp, fun _ => by simp, fun _ hfb => ?_⟩
      have hc : fallbackBytes env.fallback = none :=
        (fallbackBytes_eq_none_iff env.fallback).mpr hfb
      rw [hf] at hc
      simp at hc
  · simp only [process_page, hp]
    have hcontra : ∀ hpf : primaryFailed env.primary, False := by
      intro hpf
      have hc : primaryBytes env.primary = none :=
        (primaryBytes_eq_none_iff env.primary).mpr hpf
      rw [hp] at hc
      simp at hc
    exact ⟨by simp, fun hpf => absurd hpf (fun h => hcontra h),
      fun hpf _ => absurd hpf (fun h => hcontra h)⟩

/-- Witness for C4: the primary binary is missing and the fallback raises,
on page 3 at 200 DPI of a five-page document with completion order
`[5, 4, 3, 2, 1]`. -/
theorem C4_renderer_failover_witness :
    (process_page ⟨⟨false, false, 0, none, none⟩, ⟨none⟩⟩ "doc" .png 200 3).2.head? =
      some (.primary 3 200) ∧
    (process_page ⟨⟨false, false, 0, none, none⟩, ⟨none⟩⟩ "doc" .png 200 3).2 =
      [.primary 3 200, .fallback 3 200] ∧
    (process_page ⟨⟨false, false, 0, none, none⟩, ⟨none⟩⟩ "doc" .png 200 3).1 =
      .error ("Unable to render page " ++ toString 3) ∧
    3 ∈ (convertRun (fun _ => ⟨⟨false, false, 0, none, none⟩, ⟨none⟩⟩)
      "doc" .png 200 [5, 4, 3, 2, 1]).2 := by
  have h := C4_renderer_failover ⟨⟨false, false, 0, none, none⟩, ⟨none⟩⟩
    "doc" .png 200 3
  have hpf : primaryFailed (⟨false, false, 0, none, none⟩ : PrimaryRun) :=
    Or.inl rfl
  have hff : fallbackFailed (⟨none⟩ : FallbackRun) := Or.inl rfl
  exact ⟨h.1, h.2.1 hpf, (h.2.2 hpf hff).1,
    (h.2.2 hpf hff).2 5 [5, 4, 3, 2, 1]
      (fun _ => ⟨⟨false, false, 0, none, none⟩, ⟨none⟩⟩) rfl
      (by decide) (by decide)⟩

/-! ## Analysis-only mode and the frame property of `main` -/

/-- Contents of a file: either opaque bytes, or a finalized zip archive
with its named entries. -/
inductive FileData where
  | raw (bs : Bytes)
  | zipArchive (entries : List (String × Bytes))

/-- A file system, as the store the program can read or write. -/
def FS : Type := String → Option FileData

/-- The data `Converter.analyse` (`pdf_to_cbz.py` lines 171-179) computes
and prints: page widths, per-page suggested DPIs
`int(2000 / w * 72)`, and their min, max and average
`round(sum / len)`.  Only the computed values are modelled, not the
printed text. -/
structure AnalysisReport where
  widths : List ℚ
  dpiVals : List ℤ
  dpiMin : ℤ
  dpiMax : ℤ
  dpiAvg : ℤ

/-- `Converter.analyse`: the report, or the uncaught exception
(`ZeroDivisionError` from the DPI list comprehension when some width is
zero, then `ValueError` from `min([])` when the document has no pages). -/
def analyseReport (widths : List ℚ) : Except String AnalysisReport :=
  if widths.any (fun w => decide (w = 0)) then
    .error "ZeroDivisionError"
  else
    match widths.map (fun w => pyInt (2000 / w * 72)) with
    | [] => .error "ValueError: min() arg is an empty sequence"
    | d :: ds =>
      .ok { widths := widths
            dpiVals := d :: ds
            dpiMin := ds.foldl min d
            dpiMax := ds.foldl max d
            dpiAvg := pyRound (((d :: ds).map (Int.cast : ℤ → ℚ)).sum /
              ((d :: ds).length : ℚ)) }

/-- Writing the finalized archive at the output path, as `convert` does
through `zipfile.ZipFile(self.output_cbz, "w")`. -/
def writeZip (fs : FS) (path : String) (entries : List (String × Bytes)) : FS :=
  fun p => if p = path then some (.zipArchive entries) else fs p

/-- The dispatch at the end of `main` (`pdf_to_cbz.py` lines 238-241):
with `--analyse` the run calls `Converter.analyse`, which only reads the
input document and prints a report; otherwise it calls
`Converter.convert`, which creates/truncates the output archive and
writes the collected entries into it.  Returns the resulting file system
together with the analysis report when one was produced. -/
def mainRun (analyseFlag : Bool) (widths : List ℚ) (env : Nat → PageEnv)
    (stem : String) (fmt : Fmt) (dpi : Nat) (order : List Nat)
    (outPath : String) (fs : FS) :
    FS × Option (Except String AnalysisReport) :=
  if analyseFlag then
    (fs, some (analyseReport widths))
  else
    (writeZip fs outPath (convertRun env stem fmt dpi order).1, none)

/-- C9.  A run in analysis-only mode never creates, truncates or writes
the output archive: the whole file system, and in particular the output
path, is unchanged — both when `analyse` succeeds and when it raises.  A
convert-mode run with the same arguments, by contrast, does write the
archive at the output path, so the frame property is not vacuous. -/
theorem C9_analyse_writes_nothing (widths : List ℚ) (env : Nat → PageEnv)
    (stem : String) (fmt : Fmt) (dpi : Nat) (order : List Nat)
    (outPath : String) (fs : FS) :
    (mainRun true widths env stem fmt dpi order outPath fs).1 = fs ∧
    (mainRun true widths env stem fmt dpi order outPath fs).1 outPath =
      fs outPath ∧
    (mainRun false widths env stem fmt dpi order outPath fs).1 outPath =
      some (.zipArchive (convertRun env stem fmt dpi order).1) :=
  ⟨rfl, rfl, by simp [mainRun, writeZip]⟩

/-! ## The configuration store: `ConfigManager.get` / `ConfigManager.set`

`config_manager.py` keeps the configuration as a JSON-style dict of
dicts.  The embedding below models JSON values with dicts as association
lists in insertion order (Python dict semantics: an existing key keeps
its position on assignment, a new key is appended).  The configuration
loaded from JSON is a tree, so the in-place mutation the source performs
on a nested dict is equivalent to the functional update modelled here. -/

/-- A JSON-style configuration value. -/
inductive JVal where
  | null
  | bool (b : Bool)
  | int (n : Int)
  | str (s : String)
  | dict (entries : List (String × JVal))

/-- Python `d[k]` lookup on a dict, as an association-list scan. -/
def lookupD : List (String × JVal) → String → Option JVal
  | [], _ => none
  | (k2, v) :: rest, k => if k2 = k then some v else lookupD rest k

/-- Python `d[k] = v` on a dict: replace in place if the key exists,
append otherwise. -/
def insertD : List (String × JVal) → String → JVal → List (String × JVal)
  | [], k, v => [(k, v)]
  | (k2, v2) :: rest, k, v =>
    if k2 = k then (k, v) :: rest else (k2, v2) :: insertD rest k v

/-- `ConfigManager.get` walking the already-split key components
(`config_manager.py` lines 66-75): descend while the current value is a
dict containing the component, otherwise return the default. -/
def getKeys : JVal → List String → JVal → JVal
  | v, [], _ => v
  | .dict es, k :: ks, dflt =>
    match lookupD es k with
    | some v => getKeys v ks dflt
    | none => dflt
  | _, _ :: _, dflt => dflt

/-- The dict `ConfigManager.set` descends into at component `k`: the
existing entry if present, else the fresh `\x7b\x7d` it creates. -/
def childFor (es : List (String × JVal)) (k : String) : JVal :=
  match lookupD es k with
  | some child => child
  | none => .dict []

/-- `ConfigManager.set` walking the already-split key components
(`config_manager.py` lines 77-85): walk all but the last component,
creating empty dicts for missing keys, then assign the last component.
`none` models the `TypeError` raised when a walked-through component
holds a non-dict value (`k in config` / `config[k] = v` on a non-dict). -/
def setKeys : JVal → List String → JVal → Option JVal
  | .dict es, [k], v => some (.dict (insertD es k v))
  | .dict es, k :: k2 :: ks, v =>
    (setKeys (childFor es k) (k2 :: ks) v).map
      (fun sub => .dict (insertD es k sub))
  | _, _, _ => none

/-- Python `key.split('.')` on the character list: split at every dot,
keeping empty pieces.  Always returns at least one component. -/
def splitDotsAux : List Char → List Char → List String
  | [], acc => [String.mk acc.reverse]
  | c :: cs, acc =>
    if c = '.' then String.mk acc.reverse :: splitDotsAux cs []
    else splitDotsAux cs (c :: acc)

/-- Python `key.split('.')`. -/
def splitDots (s : String) : List String := splitDotsAux s.toList []

lemma splitDotsAux_ne_nil (cs : List Char) (acc : List Char) :
    splitDotsAux cs acc ≠ [] := by
  induction cs generalizing acc with
  | nil => simp [splitDotsAux]
  | cons c cs ih =>
    by_cases hc : c = '.' <;> simp [splitDotsAux, hc, ih]

lemma splitDots_ne_nil (s : String) : splitDots s ≠ [] :=
  splitDotsAux_ne_nil s.toList []

/-- `ConfigManager.get(key, default)`: dotted-path lookup. -/
def cmGet (cfg : JVal) (key : String) (dflt : JVal) : JVal :=
  getKeys cfg (splitDots key) dflt

/-- `ConfigManager.set(key, value)`: dotted-path update. -/
def cmSet (cfg : JVal) (key : String) (v : JVal) : Option JVal :=
  setKeys cfg (splitDots key) v

/-- The precondition of C10 on a dotted path: every proper prefix of the
path is either absent from the configuration or mapped to a nested
dict. -/
def prefixesOk : JVal → List String → Bool
  | .dict _, [_] => true
  | .dict es, k :: k2 :: ks =>
    (match lookupD es k with
     | none => true
     | some (.dict es2) => prefixesOk (.dict es2) (k2 :: ks)
     | some _ => false)
  | _, _ => false

lemma lookupD_insertD_self (es : List (String × JVal)) (k : String) (v : JVal) :
    lookupD (insertD es k v) k = some v := by
  induction es with
  | nil => simp [insertD, lookupD]
  | cons e rest ih =>
    rcases e with ⟨k2, v2⟩
    by_cases h : k2 = k
    · simp [insertD, lookupD, h]
    · simp [insertD, lookupD, h, ih]

lemma lookupD_insertD_ne (es : List (String × JVal)) (k k2 : String)
    (v : JVal) (h : k2 ≠ k) :
    lookupD (insertD es k v) k2 = lookupD es k2 := by
  have hkk : ¬(k = k2) := fun hc => h hc.symm
  induction es with
  | nil =>
    simp only [insertD, lookupD]
    rw [if_neg hkk]
  | cons e rest ih =>
    rcases e with ⟨k3, v3⟩
    by_cases h3 : k3 = k
    · subst h3
      simp only [insertD, if_pos rfl, lookupD]
      rw [if_neg hkk, if_neg hkk]
    · simp only [insertD, if_neg h3, lookupD]
      by_cases h32 : k3 = k2
      · rw [if_pos h32, if_pos h32]
      · rw [if_neg h32, if_neg h32, ih]

lemma prefixesOk_emptyDict (ks : List String) (h : ks ≠ []) :
    prefixesOk (.dict []) ks = true := by
  cases ks with
  | nil => exact absurd rfl h
  | cons k rest =>
    cases rest with
    | nil => rfl
    | cons k2 rest2 => simp [prefixesOk, lookupD]

/-- Core of C10, by induction over the path: under the prefix condition
the set succeeds, a get of the same path returns the value just set, and
every other top-level entry of the configuration is untouched. -/
lemma setKeys_get (ks : List String) : ∀ (es : List (String × JVal))
    (v dflt : JVal), prefixesOk (.dict es) ks = true →
    ∃ es2, setKeys (.dict es) ks v = some (.dict es2) ∧
      getKeys (.dict es2) ks dflt = v ∧
      ∀ k2, k2 ≠ ks.headD "" → lookupD es2 k2 = lookupD es k2 := by
  induction ks with
  | nil =>
    intro es v dflt hok
    simp [prefixesOk] at hok
  | cons k ks ih =>
    intro es v dflt hok
    cases ks with
    | nil =>
      refine ⟨insertD es k v, rfl, ?_, ?_⟩
      · simp [getKeys, lookupD_insertD_self]
      · intro k2 h2
        exact lookupD_insertD_ne es k k2 v (by simpa using h2)
    | cons k2 ks2 =>
      have hchild : ∃ esc, childFor es k = .dict esc ∧
          prefixesOk (.dict esc) (k2 :: ks2) = true := by
        rcases hl : lookupD es k with _ | child
        · exact ⟨[], by simp [childFor, hl],
            prefixesOk_emptyDict (k2 :: ks2) (by simp)⟩
        · rcases child with _ | b | n | s | es2
          · simp only [prefixesOk, hl] at hok
            exact absurd hok (by decide)
          · simp only [prefixesOk, hl] at hok
            exact absurd hok (by decide)
          · simp only [prefixesOk, hl] at hok
            exact absurd hok (by decide)
          · simp only [prefixesOk, hl] at hok
            exact absurd hok (by decide)
          · refine ⟨es2, by simp [childFor, hl], ?_⟩
            simpa only [prefixesOk, hl] using hok
      obtain ⟨esc, hcf, hok2⟩ := hchild
      obtain ⟨es2, hset, hget, hframe⟩ := ih esc v dflt hok2
      refine ⟨insertD es k (.dict es2), ?_, ?_, ?_⟩
      · simp only [setKeys, hcf, hset]
        rfl
      · simp only [getKeys, lookupD_insertD_self]
        exact hget
      · intro k3 h3
        exact lookupD_insertD_ne es k k3 (.dict es2) (by simpa using h3)

/-- C10.  For a dotted-path key whose proper prefixes are each absent or
nested dicts, `set` then `get` round-trips: the get returns exactly the
value set, and any path that starts at a different top-level key reads
the same value before and after the set. -/
theorem C10_config_set_get_roundtrip (es : List (String × JVal))
    (key key2 : String) (v dflt dflt2 : JVal)
    (hok : prefixesOk (.dict es) (splitDots key) = true)
    (hdiff : (splitDots key2).headD "" ≠ (splitDots key).headD "") :
    ∃ es2, cmSet (.dict es) key v = some (.dict es2) ∧
      cmGet (.dict es2) key dflt = v ∧
      cmGet (.dict es2) key2 dflt2 = cmGet (.dict es) key2 dflt2 := by
  obtain ⟨es2, hset, hget, hframe⟩ :=
    setKeys_get (splitDots key) es v dflt hok
  refine ⟨es2, hset, hget, ?_⟩
  unfold cmGet
  match hks2 : splitDots key2 with
  | [] => exact absurd hks2 (splitDots_ne_nil key2)
  | h2 :: t2 =>
    rw [hks2] at hdiff
    have hl := hframe h2 (by simpa using hdiff)
    simp only [getKeys, hl]

/-- Witness for C10 on the shipped default configuration shape: setting
`logging.file` and reading it back, while `quality` is untouched. -/
theorem C10_config_set_get_roundtrip_witness :
    ∃ es2, cmSet (.dict [("quality", .int 85),
        ("logging", .dict [("level", .str "INFO"), ("file", .null)])])
        "logging.file" (.str "run.log") = some (.dict es2) ∧
      cmGet (.dict es2) "logging.file" .null = .str "run.log" ∧
      cmGet (.dict es2) "quality" .null =
        cmGet (.dict [("quality", .int 85),
          ("logging", .dict [("level", .str "INFO"), ("file", .null)])])
          "quality" .null :=
  C10_config_set_get_roundtrip
    [("quality", .int 85),
     ("logging", .dict [("level", .str "INFO"), ("file", .null)])]
    "logging.file" "quality" (.str "run.log") .null .null
    (by decide) (by decide)

/-! ## The size-matching DPI search (spec section 4.2)

No size-matching search exists in the repository sources — the GUI only
multiplies a single sampled page size by the page count for display.  The
definitions below are therefore modelled from the specification text and
C8 is settled against them. -/

/-- Modelled from the spec: the projected total archive size at a trial
DPI.  The repository has no implementation of this estimator; per the
spec it renders a small sample of pages — first, middle, last — at the
trial DPI, averages their byte sizes, and multiplies by the page count.
`sampleSize p d` is the byte size of page `p` rendered at DPI `d`. -/
def projectedSize (sampleSize : Nat → Nat → Nat) (pages dpi : Nat) : Nat :=
  (sampleSize 1 dpi + sampleSize ((pages + 1) / 2) dpi + sampleSize pages dpi)
    / 3 * pages

/-- Result of the upward-doubling phase: the last DPI known to project
under the target, the first known to project over it (equal to `u` when
the ceiling was accepted), the number of render trials spent, and whether
the phase ran to its natural end within the fuel. -/
structure DoubleRes where
  u : Nat
  o : Nat
  trials : Nat
  done : Bool

/-- Modelled from the spec: the doubling phase of the size-matching
search, absent from the sources.  Starting from the clarity DPI it
doubles upward (capped at the ceiling) until the projected size exceeds
the target or the ceiling is reached; each iteration spends one render
trial.  The fuel argument only bounds the recursion; the lemmas below
show a logarithmic fuel suffices. -/
def doubleUp (proj : Nat → Nat) (target ceil : Nat) : Nat → Nat → DoubleRes
  | 0, u =>
    if ceil ≤ u then ⟨u, u, 0, true⟩ else ⟨u, u, 0, false⟩
  | fuel + 1, u =>
    if ceil ≤ u then ⟨u, u, 0, true⟩
    else
      let d := min (2 * u) ceil
      if proj d ≤ target then
        let r := doubleUp proj target ceil fuel d
        ⟨r.u, r.o, r.trials + 1, r.done⟩
      else ⟨u, d, 1, true⟩

/-- Result of the bisection phase: the chosen DPI, trials spent, and
whether the bracket narrowed to one unit within the fuel. -/
structure BisectRes where
  dpi : Nat
  trials : Nat
  done : Bool

/-- Modelled from the spec: the bisection phase of the size-matching
search, absent from the sources.  It bisects between the last under
bound and the first over bound until the bracket narrows to 1 DPI unit,
spending one render trial per step, and returns the under bound. -/
def bisect (proj : Nat → Nat) (target : Nat) : Nat → Nat → Nat → BisectRes
  | 0, u, o =>
    if o ≤ u + 1 then ⟨u, 0, true⟩ else ⟨u, 0, false⟩
  | fuel + 1, u, o =>
    if o ≤ u + 1 then ⟨u, 0, true⟩
    else
      let m := (u + o) / 2
      if proj m ≤ target then
        let r := bisect proj target fuel m o
        ⟨r.dpi, r.trials + 1, r.done⟩
      else
        let r := bisect proj target fuel u m
        ⟨r.dpi, r.trials + 1, r.done⟩

/-- The fuel both phases are given: one more than the base-2 logarithm of
the DPI ceiling. -/
def searchFuel (ceil : Nat) : Nat := Nat.log 2 ceil + 1

/-- Result of the whole search: chosen DPI, total render trials, and
whether both phases ran to their natural end. -/
structure SearchRes where
  dpi : Nat
  trials : Nat
  done : Bool

/-- Modelled from the spec: the size-matching DPI search, absent from the
sources.  One trial at the clarity DPI `lo` decides whether any search is
useful; if even `lo` projects over the target the search gives up and
returns the ceiling (the spec: return the ceiling when no DPI at or below
it fits).  Otherwise the doubling phase brackets the answer and the
bisection phase narrows it. -/
def sizeMatchDpi (proj : Nat → Nat) (target lo ceil : Nat) : SearchRes :=
  if target < proj lo then ⟨ceil, 1, true⟩
  else
    let d := doubleUp proj target ceil (searchFuel ceil) lo
    if d.u = d.o then ⟨d.u, d.trials + 1, d.done⟩
    else
      let b := bisect proj target (searchFuel ceil) d.u d.o
      ⟨b.dpi, d.trials + b.trials + 1, d.done && b.done⟩

lemma doubleUp_spec (proj : Nat → Nat) (target ceil : Nat) :
    ∀ fuel u, 1 ≤ u → u ≤ ceil → proj u ≤ target →
    proj (doubleUp proj target ceil fuel u).u ≤ target ∧
    u ≤ (doubleUp proj target ceil fuel u).u ∧
    (doubleUp proj target ceil fuel u).u ≤ (doubleUp proj target ceil fuel u).o ∧
    (doubleUp proj target ceil fuel u).o ≤ ceil ∧
    (doubleUp proj target ceil fuel u).trials ≤ fuel + 1 ∧
    ((doubleUp proj target ceil fuel u).done = true →
      ((doubleUp proj target ceil fuel u).u = (doubleUp proj target ceil fuel u).o ∧
        ceil ≤ (doubleUp proj target ceil fuel u).u) ∨
      ((doubleUp proj target ceil fuel u).u < (doubleUp proj target ceil fuel u).o ∧
        target < proj (doubleUp proj target ceil fuel u).o)) := by
  intro fuel
  induction fuel with
  | zero =>
    intro u h1 hc hp
    by_cases hcu : ceil ≤ u <;>
      simp only [doubleUp, hcu, if_true, if_false, reduceIte] <;>
      refine ⟨hp, le_rfl, le_rfl, hc, by omega, ?_⟩
    · intro _; exact Or.inl ⟨trivial, trivial⟩
    · intro h; exact absurd h (by decide)
  | succ fuel ih =>
    intro u h1 hc hp
    by_cases hcu : ceil ≤ u
    · simp only [doubleUp, hcu, reduceIte]
      refine ⟨hp, le_rfl, le_rfl, hc, by omega, ?_⟩
      intro _; exact Or.inl ⟨trivial, trivial⟩
    · have hud : u < min (2 * u) ceil := by omega
      have hdc : min (2 * u) ceil ≤ ceil := by omega
      by_cases hd : proj (min (2 * u) ceil) ≤ target
      · obtain ⟨ha, hb2, hb3, hb4, ht, hdone⟩ :=
          ih (min (2 * u) ceil) (by omega) hdc hd
        simp only [doubleUp, hcu, reduceIte, hd]
        exact ⟨ha, by omega, hb3, hb4, by omega, hdone⟩
      · simp only [doubleUp, hcu, reduceIte, hd]
        refine ⟨hp, le_rfl, le_of_lt hud, hdc, by omega, ?_⟩
        intro _
        exact Or.inr ⟨hud, by omega⟩

lemma doubleUp_done (proj : Nat → Nat) (target ceil : Nat) :
    ∀ fuel u, 1 ≤ u → ceil ≤ 2 ^ fuel * u →
    (doubleUp proj target ceil fuel u).done = true := by
  intro fuel
  induction fuel with
  | zero =>
    intro u h1 hc
    rw [pow_zero, one_mul] at hc
    simp [doubleUp, hc]
  | succ fuel ih =>
    intro u h1 hc
    by_cases hcu : ceil ≤ u
    · simp [doubleUp, hcu]
    · by_cases hd : proj (min (2 * u) ceil) ≤ target
      · simp only [doubleUp, hcu, reduceIte, hd]
        apply ih (min (2 * u) ceil) (by omega)
        rcases le_or_lt (2 * u) ceil with hle | hlt
        · rw [min_eq_left hle]
          calc ceil ≤ 2 ^ (fuel + 1) * u := hc
            _ = 2 ^ fuel * (2 * u) := by ring
        · rw [min_eq_right (le_of_lt hlt)]
          calc ceil = 1 * ceil := (one_mul ceil).symm
            _ ≤ 2 ^ fuel * ceil :=
              Nat.mul_le_mul_right ceil (Nat.one_le_two_pow)
      · simp [doubleUp, hcu, hd]

lemma bisect_spec (proj : Nat → Nat) (target : Nat) :
    ∀ fuel u o, u ≤ o → proj u ≤ target →
    proj (bisect proj target fuel u o).dpi ≤ target ∧
    u ≤ (bisect proj target fuel u o).dpi ∧
    (bisect proj target fuel u o).dpi ≤ o ∧
    (bisect proj target fuel u o).trials ≤ fuel := by
  intro fuel
  induction fuel with
  | zero =>
    intro u o huo hp
    by_cases h1 : o ≤ u + 1 <;> simp only [bisect, h1, reduceIte] <;>
      exact ⟨hp, le_rfl, huo, le_rfl⟩
  | succ fuel ih =>
    intro u o huo hp
    by_cases h1 : o ≤ u + 1
    · simp only [bisect, h1, reduceIte]
      exact ⟨hp, le_rfl, huo, by omega⟩
    · by_cases hm : proj ((u + o) / 2) ≤ target
      · obtain ⟨ha, hb2, hb3, ht⟩ := ih ((u + o) / 2) o (by omega) hm
        simp only [bisect, h1, reduceIte, hm]
        exact ⟨ha, by omega, hb3, by omega⟩
      · obtain ⟨ha, hb2, hb3, ht⟩ := ih u ((u + o) / 2) (by omega) hp
        simp only [bisect, h1, reduceIte, hm]
        exact ⟨ha, hb2, by omega, by omega⟩

lemma bisect_done (proj : Nat → Nat) (target : Nat) :
    ∀ fuel u o, o - u ≤ 2 ^ fuel →
    (bisect proj target fuel u o).done = true := by
  intro fuel
  induction fuel with
  | zero =>
    intro u o hw
    rw [pow_zero] at hw
    simp [bisect, show o ≤ u + 1 by omega]
  | succ fuel ih =>
    intro u o hw
    rw [pow_succ] at hw
    by_cases h1 : o ≤ u + 1
    · simp [bisect, h1]
    · have h2 : (0 : Nat) < 2 ^ fuel := Nat.pos_pow_of_pos fuel (by omega)
      by_cases hm : proj ((u + o) / 2) ≤ target
      · simp only [bisect, h1, reduceIte, hm]
        exact ih ((u + o) / 2) o (by omega)
      · simp only [bisect, h1, reduceIte, hm]
        exact ih u ((u + o) / 2) (by omega)

lemma ceil_le_two_pow_searchFuel (ceil : Nat) : ceil ≤ 2 ^ searchFuel ceil :=
  le_of_lt (Nat.lt_pow_succ_log_self (by norm_num) ceil)

/-- Core correctness of the size-matching search, for an arbitrary
monotone projected-size function: the search runs to its natural end,
spends at most `2 log2 ceiling + 4` render trials, and returns a DPI at
or below the ceiling that projects at or under the target — or the
ceiling itself when no DPI in `[lo, ceiling]` does. -/
lemma sizeMatchDpi_spec (proj : Nat → Nat) (target lo ceil : Nat)
    (hlo : 1 ≤ lo) (hlc : lo ≤ ceil) (hmono : Monotone proj) :
    (sizeMatchDpi proj target lo ceil).done = true ∧
    (sizeMatchDpi proj target lo ceil).trials ≤ 2 * Nat.log 2 ceil + 4 ∧
    (sizeMatchDpi proj target lo ceil).dpi ≤ ceil ∧
    (proj (sizeMatchDpi proj target lo ceil).dpi ≤ target ∨
      ((sizeMatchDpi proj target lo ceil).dpi = ceil ∧
        ∀ d, lo ≤ d → d ≤ ceil → target < proj d)) := by
  by_cases h0 : target < proj lo
  · simp only [sizeMatchDpi, h0, reduceIte]
    refine ⟨trivial, by omega, le_rfl, Or.inr ⟨trivial, ?_⟩⟩
    intro d hd _
    exact lt_of_lt_of_le h0 (hmono hd)
  · have hp : proj lo ≤ target := not_lt.mp h0
    obtain ⟨ha, hb2, hb3, hb4, ht, hdone⟩ :=
      doubleUp_spec proj target ceil (searchFuel ceil) lo hlo hlc hp
    have hddone : (doubleUp proj target ceil (searchFuel ceil) lo).done = true := by
      apply doubleUp_done proj target ceil (searchFuel ceil) lo hlo
      calc ceil ≤ 2 ^ searchFuel ceil := ceil_le_two_pow_searchFuel ceil
        _ ≤ 2 ^ searchFuel ceil * lo := Nat.le_mul_of_pos_right _ hlo
    by_cases heq : (doubleUp proj target ceil (searchFuel ceil) lo).u =
        (doubleUp proj target ceil (searchFuel ceil) lo).o
    · simp only [sizeMatchDpi, h0, reduceIte, heq]
      refine ⟨hddone, ?_, hb4, Or.inl (heq ▸ ha)⟩
      have hsf : searchFuel ceil = Nat.log 2 ceil + 1 := rfl
      omega
    · obtain ⟨hba, hbb2, hbb3, hbt⟩ :=
        bisect_spec proj target (searchFuel ceil)
          (doubleUp proj target ceil (searchFuel ceil) lo).u
          (doubleUp proj target ceil (searchFuel ceil) lo).o hb3 ha
      have hbdone := bisect_done proj target (searchFuel ceil)
        (doubleUp proj target ceil (searchFuel ceil) lo).u
        (doubleUp proj target ceil (searchFuel ceil) lo).o
        (by
          have := ceil_le_two_pow_searchFuel ceil
          omega)
      simp only [sizeMatchDpi, h0, reduceIte, heq, if_false]
      refine ⟨by rw [hddone, hbdone]; rfl, ?_, le_trans hbb3 hb4, Or.inl hba⟩
      have hsf : searchFuel ceil = Nat.log 2 ceil + 1 := rfl
      omega

/-- C8.  The size-matching search (modelled from the spec; the
repository contains no implementation) terminates within a logarithmic
number of render trials — at most `2 log2 ceiling + 4`, which for the
fixed DPI floor of the spec is O(log(ceiling/floor)) — and returns a DPI
whose projected total archive size (average of the sampled first, middle
and last page sizes times the page count) is at most the original file
size, or the DPI ceiling when no DPI between the start and the ceiling
achieves that. -/
theorem C8_size_match_search (sampleSize : Nat → Nat → Nat)
    (pages target lo ceil : Nat)
    (hlo : 1 ≤ lo) (hlc : lo ≤ ceil)
    (hmono : Monotone (projectedSize sampleSize pages)) :
    (sizeMatchDpi (projectedSize sampleSize pages) target lo ceil).done = true ∧
    (sizeMatchDpi (projectedSize sampleSize pages) target lo ceil).trials ≤
      2 * Nat.log 2 ceil + 4 ∧
    (sizeMatchDpi (projectedSize sampleSize pages) target lo ceil).dpi ≤ ceil ∧
    (projectedSize sampleSize pages
        (sizeMatchDpi (projectedSize sampleSize pages) target lo ceil).dpi ≤
        target ∨
      ((sizeMatchDpi (projectedSize sampleSize pages) target lo ceil).dpi = ceil ∧
        ∀ d, lo ≤ d → d ≤ ceil →
          target < projectedSize sampleSize pages d)) :=
  sizeMatchDpi_spec (projectedSize sampleSize pages) target lo ceil hlo hlc hmono

/-- Witness for C8: three pages of `sampleSize p d = d`, target 10,
search from DPI 1 with ceiling 8; the search picks DPI 3 (projected size
9) in 4 trials. -/
theorem C8_size_match_search_witness :
    (sizeMatchDpi (projectedSize (fun _ d => d) 3) 10 1 8).done = true ∧
    (sizeMatchDpi (projectedSize (fun _ d => d) 3) 10 1 8).trials ≤
      2 * Nat.log 2 8 + 4 ∧
    (sizeMatchDpi (projectedSize (fun _ d => d) 3) 10 1 8).dpi ≤ 8 ∧
    (projectedSize (fun _ d => d) 3
        (sizeMatchDpi (projectedSize (fun _ d => d) 3) 10 1 8).dpi ≤ 10 ∨
      ((sizeMatchDpi (projectedSize (fun _ d => d) 3) 10 1 8).dpi = 8 ∧
        ∀ d, 1 ≤ d → d ≤ 8 → 10 < projectedSize (fun _ d => d) 3 d)) :=
  C8_size_match_search (fun _ d => d) 3 10 1 8 (by decide) (by decide)
    (fun a b hab => by simp only [projectedSize]; omega)

end PdfToCbz
